import Mathlib

/-!
Verification of the link-validator core (src/main.rs): a Markdown link
checker that parses a document, extracts link targets, classifies them as
external URLs vs local references, percent-decodes and resolves local
references against the document's directory, and reports resolved paths
that do not exist on the filesystem.

The development shallowly embeds the Rust source. Paths are Unix-style
strings; filesystem state is an explicit association list threaded through
the pipeline together with a trace of the filesystem operations performed.
-/

namespace LinkValidator

/-! ## Paths (model of Rust `std::path` on Unix) -/

/-- A filesystem path, as the underlying string (Unix `OsString`). -/
abbrev Path := String

/-- Model of `Path::is_absolute` on Unix: the path begins with `/`. -/
def Path.isAbsolute (p : Path) : Bool :=
  match p.data with
  | c :: _ => c == '/'
  | [] => false

/-- Model of `Path::is_relative`: negation of `is_absolute`. -/
def Path.isRelative (p : Path) : Bool := !(Path.isAbsolute p)

/-- Whether the path's final character is a separator. -/
def Path.endsWithSlash (p : Path) : Bool :=
  match p.data.reverse with
  | c :: _ => c == '/'
  | [] => false

/-- Model of `PathBuf::join`/`push` on Unix: an absolute argument replaces
the base; otherwise the argument is appended, inserting a separator when
the base is nonempty and does not already end in one. Joining the empty
string onto a nonempty base therefore yields the base with a trailing
separator, exactly as in Rust. -/
def Path.join (base p : Path) : Path :=
  if Path.isAbsolute p then p
  else if base = "" then p
  else if Path.endsWithSlash base then base ++ p
  else base ++ "/" ++ p

/-- Model of `Path::parent` on Unix: drop any trailing separators and the
final component, returning the remaining prefix (`none` for the empty path
and for the root). `.` components are treated as ordinary components and
`//` at the start collapses to `/`; no claim depends on those edge cases. -/
def Path.parent (p : Path) : Option Path :=
  let rev1 := p.data.reverse.dropWhile (· == '/')
  if rev1.isEmpty then none
  else
    let rev3 := (rev1.dropWhile (· != '/')).dropWhile (· == '/')
    if rev3.isEmpty then
      if Path.isAbsolute p then some "/" else some ""
    else some (String.mk rev3.reverse)

/-! ## UTF-8 (model of Rust `String::from_utf8` / `str::from_utf8`) -/

/-- Whether a byte is a UTF-8 continuation byte (`0x80..=0xBF`). -/
def isCont (b : Nat) : Bool := 0x80 ≤ b && b ≤ 0xBF

/-- Decode one UTF-8 scalar value from the head of a byte list, returning
the decoded character and the remaining bytes. Implements the strict UTF-8
rules Rust uses: overlong encodings, surrogate code points and values above
`0x10FFFF` are rejected. -/
def decodeUtf8One : List Nat → Option (Char × List Nat)
  | [] => none
  | b :: rest =>
    if b ≤ 0x7F then some (Char.ofNat b, rest)
    else if 0xC2 ≤ b ∧ b ≤ 0xDF then
      match rest with
      | c :: rest2 =>
        if isCont c then some (Char.ofNat ((b - 0xC0) * 0x40 + (c - 0x80)), rest2) else none
      | _ => none
    else if b = 0xE0 then
      match rest with
      | c1 :: c2 :: rest2 =>
        if 0xA0 ≤ c1 ∧ c1 ≤ 0xBF ∧ isCont c2 then
          some (Char.ofNat ((b - 0xE0) * 0x1000 + (c1 - 0x80) * 0x40 + (c2 - 0x80)), rest2)
        else none
      | _ => none
    else if 0xE1 ≤ b ∧ b ≤ 0xEC ∨ b = 0xEE ∨ b = 0xEF then
      match rest with
      | c1 :: c2 :: rest2 =>
        if isCont c1 ∧ isCont c2 then
          some (Char.ofNat ((b - 0xE0) * 0x1000 + (c1 - 0x80) * 0x40 + (c2 - 0x80)), rest2)
        else none
      | _ => none
    else if b = 0xED then
      match rest with
      | c1 :: c2 :: rest2 =>
        if 0x80 ≤ c1 ∧ c1 ≤ 0x9F ∧ isCont c2 then
          some (Char.ofNat ((b - 0xE0) * 0x1000 + (c1 - 0x80) * 0x40 + (c2 - 0x80)), rest2)
        else none
      | _ => none
    else if b = 0xF0 then
      match rest with
      | c1 :: c2 :: c3 :: rest2 =>
        if 0x90 ≤ c1 ∧ c1 ≤ 0xBF ∧ isCont c2 ∧ isCont c3 then
          some (Char.ofNat ((b - 0xF0) * 0x40000 + (c1 - 0x80) * 0x1000 + (c2 - 0x80) * 0x40 + (c3 - 0x80)), rest2)
        else none
      | _ => none
    else if 0xF1 ≤ b ∧ b ≤ 0xF3 then
      match rest with
      | c1 :: c2 :: c3 :: rest2 =>
        if isCont c1 ∧ isCont c2 ∧ isCont c3 then
          some (Char.ofNat ((b - 0xF0) * 0x40000 + (c1 - 0x80) * 0x1000 + (c2 - 0x80) * 0x40 + (c3 - 0x80)), rest2)
        else none
      | _ => none
    else if b = 0xF4 then
      match rest with
      | c1 :: c2 :: c3 :: rest2 =>
        if 0x80 ≤ c1 ∧ c1 ≤ 0x8F ∧ isCont c2 ∧ isCont c3 then
          some (Char.ofNat ((b - 0xF0) * 0x40000 + (c1 - 0x80) * 0x1000 + (c2 - 0x80) * 0x40 + (c3 - 0x80)), rest2)
        else none
      | _ => none
    else none

/-- Decode a whole byte list as strict UTF-8 characters; `none` on any
invalid sequence, exactly as Rust's `String::from_utf8` /
`Cow::decode_utf8` fail. Fuel is the list length; `decodeUtf8One` always
consumes at least one byte, so the fuel never runs out on real inputs. -/
def utf8DecodeAux : Nat → List Nat → Option (List Char)
  | _, [] => some []
  | 0, _ :: _ => none
  | n + 1, l =>
    match decodeUtf8One l with
    | some (c, rest) => (utf8DecodeAux n rest).map (c :: ·)
    | none => none

/-- Model of Rust `String::from_utf8` over a byte list. -/
def utf8DecodeStr (l : List Nat) : Option String :=
  (utf8DecodeAux l.length l).map String.mk

/-- UTF-8 encoding of one character (the scalar-value encoding both Rust
and Lean strings use). -/
def encodeChar (c : Char) : List Nat :=
  let n := c.toNat
  if n < 0x80 then [n]
  else if n < 0x800 then [0xC0 + n / 0x40, 0x80 + n % 0x40]
  else if n < 0x10000 then
    [0xE0 + n / 0x1000, 0x80 + n / 0x40 % 0x40, 0x80 + n % 0x40]
  else
    [0xF0 + n / 0x40000, 0x80 + n / 0x1000 % 0x40, 0x80 + n / 0x40 % 0x40, 0x80 + n % 0x40]

/-- Model of Rust `str::as_bytes`: the UTF-8 bytes of a string. -/
def strBytes (s : String) : List Nat := s.data.flatMap encodeChar

/-! ## Percent-decoding (model of the `percent_encoding` crate) -/

/-- Value of an ASCII hex digit byte. -/
def hexDigit (b : Nat) : Option Nat :=
  if 0x30 ≤ b ∧ b ≤ 0x39 then some (b - 0x30)
  else if 0x41 ≤ b ∧ b ≤ 0x46 then some (b - 0x41 + 10)
  else if 0x61 ≤ b ∧ b ≤ 0x66 then some (b - 0x61 + 10)
  else none

/-- Model of `percent_encoding::percent_decode`: a `%` followed by two hex
digits decodes to that byte; a `%` not followed by two hex digits is kept
literally; all other bytes pass through. -/
def percentDecode : List Nat → List Nat
  | 0x25 :: a :: b :: rest =>
    match hexDigit a, hexDigit b with
    | some x, some y => (0x10 * x + y) :: percentDecode rest
    | _, _ => 0x25 :: percentDecode (a :: b :: rest)
  | b :: rest => b :: percentDecode rest
  | [] => []

/-! ## URL parsing (model of the `url` crate, WHATWG URL standard) -/

/-- Whether a character may begin a URL scheme (ASCII alphabetic). -/
def isSchemeStart (c : Char) : Bool := c.isAlpha

/-- Whether a character may continue a URL scheme
(ASCII alphanumeric, `+`, `-` or `.`). -/
def isSchemeChar (c : Char) : Bool := c.isAlphanum || c == '+' || c == '-' || c == '.'

/-- Scan the remainder of a scheme: accumulate scheme characters until the
terminating `:`, failing at any other character or at end of input. -/
def schemeAux (acc : List Char) : List Char → Option (String × List Char)
  | [] => none
  | c :: rest =>
    if c == ':' then some (String.mk acc.reverse, rest)
    else if isSchemeChar c then schemeAux (c :: acc) rest
    else none

/-- Split a string into its URL scheme and the part after the `:`; `none`
when the string has no valid scheme, which is exactly when the `url`
crate's `Url::parse` fails with a relative-URL-without-base error. -/
def splitScheme (s : String) : Option (String × List Char) :=
  match s.data with
  | [] => none
  | c :: rest => if isSchemeStart c then schemeAux [c] rest else none

/-- The WHATWG special schemes that require a non-empty host
(the `file` scheme allows an empty host and is handled separately). -/
def specialScheme (s : String) : Bool :=
  s == "http" || s == "https" || s == "ws" || s == "wss" || s == "ftp"

/-- The authority chunk after a special scheme: skip leading `/` and `\`,
then take until the next `/`, `\`, `?` or `#`. -/
def authorityChunk (cs : List Char) : List Char :=
  (cs.dropWhile (fun c => c == '/' || c == '\\')).takeWhile
    (fun c => !(c == '/' || c == '\\' || c == '?' || c == '#'))

/-- The host part of an authority chunk: the part after the last `@`,
truncated at the first `:` (port separator). Bracketed IPv6 hosts and
host-character validation are not modelled; no claim depends on them. -/
def hostPart (cs : List Char) : List Char :=
  (if cs.contains '@' then ((cs.reverse.takeWhile (· != '@')).reverse) else cs).takeWhile
    (· != ':')

/-- ASCII lowercasing of one character (URL schemes are ASCII-only). -/
def lowerChar (c : Char) : Char :=
  if 'A' ≤ c ∧ c ≤ 'Z' then Char.ofNat (c.toNat + 32) else c

/-- ASCII lowercasing of a string (the scheme normalisation `Url::parse`
performs). -/
def asciiLower (s : String) : String := String.mk (s.data.map lowerChar)

/-- A parsed URL, reduced to what the claims need: the (lowercased) scheme,
whether the URL has an authority component, and the text after the scheme. -/
structure Url where
  scheme : String
  hasAuthority : Bool
  afterScheme : String
deriving DecidableEq

/-- Model of `url::Url::parse` on a string without a base URL. Parsing
succeeds exactly when the input has a valid scheme and, for the special
schemes (`http` etc.), a non-empty host. Not modelled (no claim depends on
them): WHATWG input trimming of control characters, port-number and
host-character validation, and IDNA host mapping. Non-special schemes
such as `mailto` accept any remainder as an opaque path, so parsing them
succeeds with no authority, as in the crate. -/
def Url.parse (s : String) : Option Url :=
  match splitScheme s with
  | none => none
  | some (sch, rest) =>
    let schL := asciiLower sch
    if specialScheme schL then
      if (hostPart (authorityChunk rest)).isEmpty then none
      else some ⟨schL, true, String.mk rest⟩
    else
      some ⟨schL, rest.take 2 == ['/', '/'], String.mk rest⟩

/-! ## Filesystem model -/

/-- The kind of filesystem object a path ultimately resolves to. -/
inductive FileType where
  | file
  | dir
deriving DecidableEq

/-- One filesystem entry: a regular file with text content, a directory,
or a symbolic link to a target path. -/
inductive Entry where
  | file (content : String)
  | dir
  | symlink (target : Path)
deriving DecidableEq

/-- Filesystem state: a finite map from paths to entries, as an
association list. Paths are compared as literal strings (no component
normalisation); symbolic links are followed at the looked-up path. -/
abbrev FS := List (Path × Entry)

/-- Look up the entry stored at a path. -/
def FS.lookup (fs : FS) (p : Path) : Option Entry :=
  (fs.find? (fun e => e.1 == p)).map (·.2)

/-- The kernel-side limit on symbolic-link traversal (Linux `ELOOP` after
40 links); `stat` fails once it is exceeded. -/
def symlinkFuel : Nat := 40

/-- Follow symbolic links from a path until a file or directory is
reached: the model of `stat`'s resolution of the final path component.
`none` models every failure (no entry, or too many links). -/
def resolveMeta (fs : FS) : Nat → Path → Option FileType
  | 0, _ => none
  | n + 1, p =>
    match FS.lookup fs p with
    | some (.file _) => some .file
    | some .dir => some .dir
    | some (.symlink t) => resolveMeta fs n t
    | none => none

/-- A path with its trailing separators removed. -/
def stripSlashes (p : Path) : Path :=
  String.mk (p.data.reverse.dropWhile (· == '/')).reverse

/-- Model of Rust `Path::exists` = `fs::metadata(p).is_ok()`: `stat` the
path, following symbolic links. A path with a trailing separator (as POSIX
requires) exists only if it resolves to a directory; the empty path does
not exist; a path consisting only of separators is the root. -/
def pathExists (fs : FS) (p : Path) : Bool :=
  if p = "" then false
  else if Path.endsWithSlash p then
    let q := stripSlashes p
    match resolveMeta fs symlinkFuel (if q = "" then "/" else q) with
    | some .dir => true
    | _ => false
  else (resolveMeta fs symlinkFuel p).isSome

/-- Model of `read_markdown` (src/main.rs lines 67-72): `File::open`
follows symbolic links; reading succeeds only on a regular file. All
`io::Error` cases collapse to `none` (the `Err` of the `io::Result`). -/
def read_markdown (fs : FS) : Nat → Path → Option String
  | 0, _ => none
  | n + 1, p =>
    match FS.lookup fs p with
    | some (.file c) => some c
    | some (.symlink t) => read_markdown fs n t
    | _ => none

/-! ## Syntax tree and link extraction -/

/-- Model of a comrak `AstNode`: a link node carries its raw URL bytes
(`NodeValue::Link(link)` with `link.url : Vec<u8>`) plus its display-text
children; every other node kind is collapsed to `other` with its children,
since `extract_links` treats them all alike. -/
inductive Node where
  | link (url : List Nat) (children : List Node)
  | other (children : List Node)

mutual

/-- Model of `extract_links` (src/main.rs lines 75-88): a link node
contributes its URL payload when `String::from_utf8` succeeds and nothing
otherwise, and its children are not visited; any other node recurses into
its children. The `&mut Vec` accumulator is rendered as list append, which
produces the same order. -/
def extract_links : Node → List String
  | .link url _ =>
    match utf8DecodeStr url with
    | some p => [p]
    | none => []
  | .other children => extract_links_list children

/-- Pre-order, left-to-right extraction over a list of sibling nodes
(the iteration over `root.children()` in `get_missing_links` and over
`node.children()` in `extract_links`). -/
def extract_links_list : List Node → List String
  | [] => []
  | n :: ns => extract_links n ++ extract_links_list ns

end

/-! ## The resolver pipeline (`get_missing_links`, src/main.rs lines 90-153) -/

/-- Percent-decode a link target and reinterpret the bytes as text: the
`percent_decode(l.as_bytes()).decode_utf8()` step of the classification
loop (src/main.rs line 117). -/
def decodeTarget (l : String) : Option String :=
  utf8DecodeStr (percentDecode (strBytes l))

/-- Model of the classification loop (src/main.rs lines 112-128): targets
that parse as URLs are skipped; the rest are percent-decoded, successfully
decoded targets are collected in order (`file_links`), and decode failures
are reported to the diagnostic channel (the two `eprintln!` calls, modelled
as the original raw link string; the error description it is printed with
is elided). -/
def classifyLinks : List String → List String × List String
  | [] => ([], [])
  | l :: rest =>
    let r := classifyLinks rest
    if (Url.parse l).isSome then r
    else
      match decodeTarget l with
      | some d => (d :: r.1, r.2)
      | none => (r.1, l :: r.2)

/-- Model of the `base_dir` computation (src/main.rs lines 132-135):
the document's parent directory, or the empty path when it has none. -/
def base_dir (file : Path) : Path :=
  match Path.parent file with
  | some dir => dir
  | none => ""

/-- Model of the resolution loop body (src/main.rs lines 136-142): a
relative path is joined onto the base directory, an absolute path is left
unchanged. -/
def resolveOne (base l : Path) : Path :=
  if Path.isRelative l then Path.join base l else l

/-- A filesystem operation performed by the pipeline, recorded in the
run's trace. -/
inductive FSOp where
  | read (p : Path)
  | probe (p : Path)
  | write (p : Path)
deriving DecidableEq

/-- The filesystem read performed by `read_markdown`: returns the result
together with the filesystem it leaves behind (opening and reading a file
does not modify it) and the operation performed. -/
def readPrim (fs : FS) (p : Path) : Option String × FS × List FSOp :=
  (read_markdown fs symlinkFuel p, fs, [FSOp.read p])

/-- The existence probe `l.exists()` (src/main.rs line 147): returns the
answer together with the filesystem it leaves behind (`stat` does not
modify it) and the operation performed. -/
def probePrim (fs : FS) (p : Path) : Bool × FS × List FSOp :=
  (pathExists fs p, fs, [FSOp.probe p])

/-- Result of the existence-checking loop: the missing paths, the
filesystem after the loop, and the operations performed. -/
structure CheckResult where
  missing : List Path
  fsAfter : FS
  trace : List FSOp
deriving DecidableEq

/-- Model of the existence-checking loop (src/main.rs lines 144-150):
probe each resolved path in order, threading the filesystem through the
probes, and collect the paths whose probe failed. -/
def checkMissing (fs : FS) : List Path → CheckResult
  | [] => ⟨[], fs, []⟩
  | l :: rest =>
    let pr := probePrim fs l
    let next := checkMissing pr.2.1 rest
    ⟨if pr.1 then next.missing else l :: next.missing,
     next.fsAfter, pr.2.2 ++ next.trace⟩

/-- Result of one document's pipeline run: the missing-link list (the
function's return value), the diagnostics printed to stderr, the
filesystem after the run, and the trace of filesystem operations. -/
structure RunResult where
  missing : List Path
  diags : List String
  fsAfter : FS
  trace : List FSOp
deriving DecidableEq

/-- Model of `get_missing_links` (src/main.rs lines 90-153). The Markdown
parser (comrak `parse_document`, an external crate) is a parameter: `parse`
maps the document text to the children of the root document node, over
which the extraction loop (lines 108-110) runs. `read_markdown(file)
.unwrap()` panics when the read fails; the panic is modelled as `none`. -/
def get_missing_links (parse : String → List Node) (fs : FS) (file : Path) :
    Option RunResult :=
  let rd := readPrim fs file
  match rd.1 with
  | none => none
  | some contents =>
    let links := extract_links_list (parse contents)
    let cls := classifyLinks links
    let resolved := cls.1.map (resolveOne (base_dir file))
    let chk := checkMissing rd.2.1 resolved
    some ⟨chk.missing, cls.2, chk.fsAfter, rd.2.2 ++ chk.trace⟩

/-- The candidate resolved paths of a document: the decoded local
references in extraction order after resolution, i.e. the contents of
`file_links` right before the existence-checking loop. Empty when the
document cannot be read. -/
def candidatePaths (parse : String → List Node) (fs : FS) (file : Path) :
    List Path :=
  match read_markdown fs symlinkFuel file with
  | none => []
  | some contents =>
    ((classifyLinks (extract_links_list (parse contents))).1).map
      (resolveOne (base_dir file))

/-- Modelled from the spec (and src/main.rs lines 44-57): the directory
mode of `main` processes the Markdown files found by the traversal one
after another, sequentially. A panic inside `get_missing_links`
(modelled as `none`) terminates the process, so no result is produced for
any document, including the ones not yet processed. -/
def processDocs (parse : String → List Node) (fs : FS) :
    List Path → Option (List (Path × List Path))
  | [] => some []
  | f :: rest =>
    match get_missing_links parse fs f with
    | none => none
    | some r => (processDocs parse fs rest).map ((f, r.missing) :: ·)

/-! ## Stage summaries

Per-target summaries of the classification loop, and lemmas relating the
loop-shaped definitions above to `filterMap`/`filter`/`map` form. -/

/-- What the classification loop does with a single link target, on the
`file_links` side: `none` for targets that parse as URLs and for decode
failures, `some` of the decoded path otherwise. -/
def targetPath (l : String) : Option String :=
  if (Url.parse l).isSome then none else decodeTarget l

/-- What the classification loop does with a single link target, on the
diagnostic side: `some l` exactly for local references whose
percent-decoding fails. -/
def targetDiag (l : String) : Option String :=
  if (Url.parse l).isSome then none
  else match decodeTarget l with
       | some _ => none
       | none => some l

theorem classifyLinks_eq (ls : List String) :
    classifyLinks ls = (ls.filterMap targetPath, ls.filterMap targetDiag) := by
  induction ls with
  | nil => rfl
  | cons l rest ih =>
    simp only [classifyLinks, ih, List.filterMap_cons, targetPath, targetDiag]
    by_cases hu : (Url.parse l).isSome
    · simp [hu]
    · simp only [hu, if_false]
      cases hd : decodeTarget l <;> simp

theorem checkMissing_eq (fs : FS) (ls : List Path) :
    checkMissing fs ls =
      ⟨ls.filter (fun p => !pathExists fs p), fs, ls.map FSOp.probe⟩ := by
  induction ls with
  | nil => rfl
  | cons l rest ih =>
    simp only [checkMissing, probePrim, ih, List.filter_cons, List.map_cons]
    by_cases hp : pathExists fs l <;> simp [hp]

theorem extract_links_list_append (ns1 ns2 : List Node) :
    extract_links_list (ns1 ++ ns2) =
      extract_links_list ns1 ++ extract_links_list ns2 := by
  induction ns1 with
  | nil => rfl
  | cons n ns ih => simp [extract_links_list, ih]

/-- Unfolding a successful pipeline run into its stages. -/
theorem run_some_elim {parse : String → List Node} {fs : FS} {file : Path}
    {r : RunResult} (h : get_missing_links parse fs file = some r) :
    ∃ contents, read_markdown fs symlinkFuel file = some contents ∧
      r = ⟨(((extract_links_list (parse contents)).filterMap targetPath).map
              (resolveOne (base_dir file))).filter (fun p => !pathExists fs p),
           (extract_links_list (parse contents)).filterMap targetDiag, fs,
           FSOp.read file ::
             (((extract_links_list (parse contents)).filterMap targetPath).map
               (resolveOne (base_dir file))).map FSOp.probe⟩ := by
  unfold get_missing_links readPrim at h
  cases hr : read_markdown fs symlinkFuel file with
  | none => rw [hr] at h; exact absurd h (by simp)
  | some contents =>
    refine ⟨contents, rfl, ?_⟩
    rw [hr] at h
    simp only [classifyLinks_eq, checkMissing_eq] at h
    exact (Option.some_injective _ h).symm

/-- `candidatePaths` in terms of the read contents. -/
theorem candidatePaths_eq {fs : FS} {file : Path} {contents : String}
    (parse : String → List Node)
    (hr : read_markdown fs symlinkFuel file = some contents) :
    candidatePaths parse fs file =
      ((extract_links_list (parse contents)).filterMap targetPath).map
        (resolveOne (base_dir file)) := by
  unfold candidatePaths
  rw [hr]
  simp [classifyLinks_eq]

/-! ## Path lemmas -/

theorem join_empty (r : Path) : Path.join "" r = r := by
  unfold Path.join
  split
  · rfl
  · rfl

theorem endsWithSlash_append_slash (d : Path) :
    Path.endsWithSlash (d ++ "/") = true := by
  have hd : (d ++ "/").data = d.data ++ ['/'] := String.data_append d "/"
  unfold Path.endsWithSlash
  rw [hd]
  simp

theorem append_slash_ne_empty (d : Path) : d ++ "/" ≠ "" := by
  intro h
  have h2 := congrArg String.data h
  rw [String.data_append] at h2
  simp at h2

theorem stripSlashes_append_slash (d : Path)
    (hds : Path.endsWithSlash d = false) : stripSlashes (d ++ "/") = d := by
  unfold stripSlashes
  rw [String.data_append]
  have h1 : (d.data ++ ['/']).reverse = '/' :: d.data.reverse := by simp
  rw [h1]
  have h2 : List.dropWhile (fun c => c == '/') ('/' :: d.data.reverse) =
      List.dropWhile (fun c => c == '/') d.data.reverse := by
    simp [List.dropWhile]
  rw [h2]
  have h3 : List.dropWhile (fun c => c == '/') d.data.reverse = d.data.reverse := by
    unfold Path.endsWithSlash at hds
    cases hr : d.data.reverse with
    | nil => rfl
    | cons c cs =>
      rw [hr] at hds
      have hc : (c == '/') = false := by simpa using hds
      simp [List.dropWhile_cons, hc]
  rw [h3]
  cases d
  simp

theorem append_empty_str (s : Path) : s ++ "" = s := by
  apply String.ext
  rw [String.data_append]
  simp

/-! ## Claim theorems -/

/-- C1: for a Local Reference whose percent-decoding yields `d`, the
pipeline resolves a relative `d` to the document directory joined with
`d`, leaves an absolute `d` unchanged independently of the base, computes
an empty base when the document path has no parent, and with an empty base
the resolved path is `d` itself. -/
theorem c1_resolution (file l d : Path) (hurl : Url.parse l = none)
    (hd : decodeTarget l = some d) :
    targetPath l = some d
  ∧ (Path.parent file = none → base_dir file = "")
  ∧ (Path.isRelative d = true →
      resolveOne (base_dir file) d = Path.join (base_dir file) d)
  ∧ (Path.isRelative d = false → ∀ b, resolveOne b d = d)
  ∧ (base_dir file = "" → resolveOne (base_dir file) d = d) := by
  refine ⟨?_, ?_, ?_, ?_, ?_⟩
  · unfold targetPath
    rw [hurl]
    simpa using hd
  · intro h
    unfold base_dir
    rw [h]
  · intro h
    unfold resolveOne
    rw [h]
    rfl
  · intro h b
    unfold resolveOne
    rw [h]
    rfl
  · intro h
    rw [h]
    unfold resolveOne
    split
    · exact join_empty d
    · rfl

theorem c1_resolution_witness :
    targetPath "my%20file.md" = some "my file.md" ∧
    resolveOne (base_dir "/tmp/docs/guide.md") "my file.md" =
      Path.join (base_dir "/tmp/docs/guide.md") "my file.md" :=
  ⟨(c1_resolution "/tmp/docs/guide.md" "my%20file.md" "my file.md"
      (by decide) (by decide)).1,
   (c1_resolution "/tmp/docs/guide.md" "my%20file.md" "my file.md"
      (by decide) (by decide)).2.2.1 (by decide)⟩

/-- C7: visiting a link node yields its decoded URL payload only, without
recursing into the link's children (so a link nested in the display text
contributes nothing), while every non-link node recurses into all of its
children in order. -/
theorem c7_link_text_not_searched :
    (∀ url cs, extract_links (Node.link url cs) = extract_links (Node.link url []))
  ∧ (∀ u1 u2 cs2, extract_links (Node.link u1 [Node.link u2 cs2]) =
      extract_links (Node.link u1 []))
  ∧ (∀ url cs, extract_links (Node.link url cs) =
      (utf8DecodeStr url).elim [] (fun s => [s]))
  ∧ (∀ cs, extract_links (Node.other cs) = extract_links_list cs)
  ∧ (∀ n ns, extract_links_list (n :: ns) =
      extract_links n ++ extract_links_list ns) := by
  refine ⟨fun url cs => rfl, fun u1 u2 cs2 => rfl, ?_, fun cs => rfl, fun n ns => rfl⟩
  intro url cs
  unfold extract_links
  cases h : utf8DecodeStr url <;> simp [h]

/-! ## Concrete fixtures used by counterexamples and witnesses -/

/-- A parser fixture whose document contains one `mailto:` link. -/
def parseMailto : String → List Node := fun _ => [Node.link (strBytes "mailto:a@b") []]

/-- A parser fixture whose document contains one relative local link. -/
def parseFix : String → List Node :=
  fun _ => [Node.link (strBytes "assets/diagram.png") []]

/-- A parser fixture whose document contains one link with invalid UTF-8
URL bytes. -/
def parseBadUtf8 : String → List Node := fun _ => [Node.link [255] []]

/-- A filesystem containing only the document `doc.md`. -/
def fsDoc : FS := [("doc.md", Entry.file "text")]

/-- A filesystem containing only the document `/tmp/docs/guide.md`. -/
def fsFix : FS := [("/tmp/docs/guide.md", Entry.file "doc")]

/-- The run result of `parseFix` over `fsFix`: the linked file is absent. -/
def rFix : RunResult :=
  ⟨["/tmp/docs/assets/diagram.png"], [], fsFix,
   [FSOp.read "/tmp/docs/guide.md", FSOp.probe "/tmp/docs/assets/diagram.png"]⟩

/-- Counterexample to C2 as stated: `mailto:a@b` parses as an absolute URL
with no authority component, so URL-parse success does not require an
authority; the target is nonetheless discarded as External and the
Missing Link output is empty even though no such path exists on disk. -/
theorem c2_counterexample :
    (Url.parse "mailto:a@b").isSome = true
  ∧ (Url.parse "mailto:a@b").map Url.hasAuthority = some false
  ∧ (get_missing_links parseMailto fsDoc "doc.md").map RunResult.missing = some []
  ∧ pathExists fsDoc "mailto:a@b" = false := by
  refine ⟨by decide, by decide, by decide, by decide⟩

/-- C2 (amended): classification is total and exclusive, but URL-parse
success requires only a valid scheme, not an authority. Every Missing Link
arises from a link target that failed URL parsing, so targets that parse
as absolute URLs never appear in the output in any form; and any target
that parses successfully necessarily has a scheme. -/
theorem c2_classification (parse : String → List Node) (fs : FS) (file : Path)
    (r : RunResult) (h : get_missing_links parse fs file = some r) :
    (∀ m ∈ r.missing, ∃ contents l d,
        read_markdown fs symlinkFuel file = some contents ∧
        l ∈ extract_links_list (parse contents) ∧
        Url.parse l = none ∧ decodeTarget l = some d ∧
        m = resolveOne (base_dir file) d)
  ∧ (∀ s u, Url.parse s = some u → (splitScheme s).isSome = true) := by
  obtain ⟨contents, hr, hre⟩ := run_some_elim h
  constructor
  · intro m hm
    rw [hre] at hm
    simp only at hm
    rcases (List.mem_filter.mp hm) with ⟨hm3, _⟩
    rcases List.mem_map.mp hm3 with ⟨d, hd2, rfl⟩
    rcases List.mem_filterMap.mp hd2 with ⟨l, hl, htp⟩
    unfold targetPath at htp
    by_cases hu : (Url.parse l).isSome
    · rw [if_pos hu] at htp
      exact absurd htp (by simp)
    · rw [if_neg hu] at htp
      exact ⟨contents, l, d, hr, hl, Option.not_isSome_iff_eq_none.mp hu, htp, rfl⟩
  · intro s u hsu
    unfold Url.parse at hsu
    cases hs : splitScheme s with
    | none => rw [hs] at hsu; exact absurd hsu (by simp)
    | some p => simp [hs]

theorem c2_classification_witness :
    (splitScheme "https://example.com/readme").isSome = true :=
  (c2_classification parseFix fsFix "/tmp/docs/guide.md" rFix (by decide)).2
    "https://example.com/readme" ⟨"https", true, "//example.com/readme"⟩ (by decide)

/-- Counterexample to C3 as stated: a link whose URL bytes are not valid
UTF-8 is dropped during extraction with no diagnostic at all — the run's
diagnostic list is empty, against the claim that such targets are reported
to the error channel. -/
theorem c3_counterexample :
    utf8DecodeStr [255] = none
  ∧ get_missing_links parseBadUtf8 fsDoc "doc.md" =
      some ⟨[], [], fsDoc, [FSOp.read "doc.md"]⟩ :=
  ⟨by decide, by decide⟩

/-- C3 (amended): both decode failures are non-fatal and localized to the
single target, but only percent-decode failures produce a diagnostic. A
link whose URL bytes are not valid text is silently dropped at extraction
(no target, no diagnostic) while its siblings are still processed; a local
reference whose percent-decoding fails is recorded on the diagnostic
channel as the original raw link string, contributes no path, and the
surrounding targets are processed as if it were absent. -/
theorem c3_decode_failures :
    (∀ url cs, utf8DecodeStr url = none → extract_links (Node.link url cs) = [])
  ∧ (∀ ns1 n ns2, extract_links_list (ns1 ++ n :: ns2) =
      extract_links_list ns1 ++ extract_links n ++ extract_links_list ns2)
  ∧ (∀ xs l ys, Url.parse l = none → decodeTarget l = none →
      classifyLinks (xs ++ l :: ys) =
        ((classifyLinks xs).1 ++ (classifyLinks ys).1,
         (classifyLinks xs).2 ++ l :: (classifyLinks ys).2)) := by
  refine ⟨?_, ?_, ?_⟩
  · intro url cs hu
    unfold extract_links
    rw [hu]
  · intro ns1 n ns2
    rw [extract_links_list_append]
    simp [extract_links_list, List.append_assoc]
  · intro xs l ys hu hd
    simp [classifyLinks_eq, List.filterMap_append, List.filterMap_cons,
      targetPath, targetDiag, hu, hd]

theorem c3_decode_failures_witness :
    extract_links (Node.link [255] []) = []
  ∧ classifyLinks (["x"] ++ "%FF" :: ["y"]) =
      ((classifyLinks ["x"]).1 ++ (classifyLinks ["y"]).1,
       (classifyLinks ["x"]).2 ++ "%FF" :: (classifyLinks ["y"]).2) :=
  ⟨c3_decode_failures.1 [255] [] (by decide),
   c3_decode_failures.2.2 ["x"] "%FF" ["y"] (by decide) (by decide)⟩

/-- A parser fixture for documents with no links. -/
def parseEmpty : String → List Node := fun _ => []

/-- A filesystem containing only the document `b.md`; `a.md` is absent. -/
def fsOnlyB : FS := [("b.md", Entry.file "hi")]

/-- Counterexample to C4 as stated: when `a.md` cannot be read,
`get_missing_links` panics (`read_markdown(file).unwrap()`), so the
directory-mode run aborts and the unrelated, readable document `b.md` —
which processes fine on its own — is never processed. -/
theorem c4_counterexample :
    read_markdown fsOnlyB symlinkFuel "a.md" = none
  ∧ processDocs parseEmpty fsOnlyB ["a.md", "b.md"] = none
  ∧ processDocs parseEmpty fsOnlyB ["b.md"] = some [("b.md", [])] :=
  ⟨by decide, by decide, by decide⟩

/-- C4 (amended): when the document's text cannot be obtained, the
per-document pipeline fails for that document — but the failure is a
panic, not a recoverable propagation: the whole run aborts, so the caller
cannot decide to continue, and the processing of subsequent, unrelated
documents is aborted with it. -/
theorem c4_read_failure (parse : String → List Node) (fs : FS) (f : Path)
    (rest : List Path) (h : read_markdown fs symlinkFuel f = none) :
    get_missing_links parse fs f = none
  ∧ processDocs parse fs (f :: rest) = none := by
  have h1 : get_missing_links parse fs f = none := by
    unfold get_missing_links readPrim
    rw [h]
  exact ⟨h1, by unfold processDocs; rw [h1]⟩

theorem c4_read_failure_witness :
    get_missing_links parseEmpty fsOnlyB "a.md" = none
  ∧ processDocs parseEmpty fsOnlyB ["a.md", "b.md"] = none :=
  c4_read_failure parseEmpty fsOnlyB "a.md" ["b.md"] (by decide)

/-! ## Existence-check lemmas (for C5 and C10) -/

theorem resolveMeta_step (fs : FS) (n : Nat) (p : Path) :
    resolveMeta fs (n + 1) p =
      match FS.lookup fs p with
      | some (.file _) => some .file
      | some .dir => some .dir
      | some (.symlink t) => resolveMeta fs n t
      | none => none := rfl

theorem symlinkFuel_succ : symlinkFuel = 39 + 1 := rfl

theorem pathExists_plain (fs : FS) (p : Path) (hp0 : p ≠ "")
    (hends : Path.endsWithSlash p = false) :
    pathExists fs p = (resolveMeta fs symlinkFuel p).isSome := by
  unfold pathExists
  rw [if_neg hp0, hends]
  simp

/-- A filesystem with a document and a dangling symbolic link. -/
def fsSymlink : FS :=
  [("/tmp/d/g.md", Entry.file "x"), ("/tmp/link", Entry.symlink "/tmp/absent")]

/-- A parser fixture whose document contains one absolute local link to
`/tmp/link`. -/
def parseAbsLink : String → List Node :=
  fun _ => [Node.link (strBytes "/tmp/link") []]

/-- The run result of `parseAbsLink` over `fsSymlink`. -/
def rSym : RunResult :=
  ⟨["/tmp/link"], [], fsSymlink, [FSOp.read "/tmp/d/g.md", FSOp.probe "/tmp/link"]⟩

/-- Counterexample to C5 as stated: a filesystem entry (a symbolic link
whose target is absent) exists at `/tmp/link`, yet the path is reported
as a Missing Link — `Path::exists` follows symlinks, so a dangling
symlink does not count as existing. -/
theorem c5_counterexample :
    FS.lookup fsSymlink "/tmp/link" = some (Entry.symlink "/tmp/absent")
  ∧ (get_missing_links parseAbsLink fsSymlink "/tmp/d/g.md").map RunResult.missing =
      some ["/tmp/link"] :=
  ⟨by decide, by decide⟩

/-- C5 (amended): a Resolved Path is added to the Missing Link list
exactly when the symlink-following existence check fails. A regular file
or directory at the path counts as existing, but a symbolic link counts
only through its target: a symlink whose target has no entry is reported
missing. -/
theorem c5_existence (parse : String → List Node) (fs : FS) (file : Path)
    (r : RunResult) (h : get_missing_links parse fs file = some r) :
    (∀ p, p ∈ r.missing ↔
      (p ∈ candidatePaths parse fs file ∧ pathExists fs p = false))
  ∧ (∀ p c, FS.lookup fs p = some (Entry.file c) → p ≠ "" →
      Path.endsWithSlash p = false → pathExists fs p = true)
  ∧ (∀ p, FS.lookup fs p = some Entry.dir → p ≠ "" →
      Path.endsWithSlash p = false → pathExists fs p = true)
  ∧ (∀ p t, FS.lookup fs p = some (Entry.symlink t) → FS.lookup fs t = none →
      p ≠ "" → Path.endsWithSlash p = false → pathExists fs p = false) := by
  obtain ⟨contents, hr, hre⟩ := run_some_elim h
  refine ⟨?_, ?_, ?_, ?_⟩
  · intro p
    rw [hre, candidatePaths_eq parse hr]
    simp only [List.mem_filter]
    constructor
    · rintro ⟨h1, h2⟩
      exact ⟨h1, by simpa using h2⟩
    · rintro ⟨h1, h2⟩
      exact ⟨h1, by simpa using h2⟩
  · intro p c hl hp0 hends
    rw [pathExists_plain fs p hp0 hends, symlinkFuel_succ, resolveMeta_step, hl]
    rfl
  · intro p hl hp0 hends
    rw [pathExists_plain fs p hp0 hends, symlinkFuel_succ, resolveMeta_step, hl]
    rfl
  · intro p t hl hlt hp0 hends
    rw [pathExists_plain fs p hp0 hends, symlinkFuel_succ, resolveMeta_step, hl]
    show (resolveMeta fs 39 t).isSome = false
    have h39 : (39 : Nat) = 38 + 1 := rfl
    rw [h39, resolveMeta_step, hlt]
    rfl

theorem c5_existence_witness :
    ("/tmp/link" ∈ rSym.missing ↔
      ("/tmp/link" ∈ candidatePaths parseAbsLink fsSymlink "/tmp/d/g.md" ∧
        pathExists fsSymlink "/tmp/link" = false))
  ∧ pathExists fsSymlink "/tmp/link" = false :=
  ⟨(c5_existence parseAbsLink fsSymlink "/tmp/d/g.md" rSym (by decide)).1 "/tmp/link",
   (c5_existence parseAbsLink fsSymlink "/tmp/d/g.md" rSym (by decide)).2.2.2
     "/tmp/link" "/tmp/absent" (by decide) (by decide) (by decide) (by decide)⟩

theorem filter_map_filterMap {α β γ : Type} (ls : List α) (g : α → Option β)
    (f : β → γ) (q : γ → Bool) :
    (((ls.filterMap g).map f).filter q) =
      ls.filterMap (fun l => (g l).bind
        (fun d => if q (f d) then some (f d) else none)) := by
  induction ls with
  | nil => rfl
  | cons l rest ih =>
    simp only [List.filterMap_cons]
    cases hg : g l with
    | none => simpa using ih
    | some d =>
      simp only [List.map_cons, List.filter_cons, Option.some_bind]
      by_cases hq : q (f d) <;> simp [hq, ih]

/-- C6: the Missing Link list is the order-preserving image, under a
per-target partial function, of the pre-order depth-first left-to-right
link-extraction list — so its order matches appearance order and each
entry arises from exactly one link node — and equals the candidate list
filtered by non-existence, with no deduplication or reordering. -/
theorem c6_order (parse : String → List Node) (fs : FS) (file : Path)
    (r : RunResult) (h : get_missing_links parse fs file = some r) :
    (∃ contents, read_markdown fs symlinkFuel file = some contents ∧
      r.missing = (extract_links_list (parse contents)).filterMap
        (fun l => (targetPath l).bind (fun d =>
          if pathExists fs (resolveOne (base_dir file) d) then none
          else some (resolveOne (base_dir file) d))))
  ∧ r.missing = (candidatePaths parse fs file).filter (fun p => !pathExists fs p) := by
  obtain ⟨contents, hr, hre⟩ := run_some_elim h
  constructor
  · refine ⟨contents, hr, ?_⟩
    rw [hre]
    show (((extract_links_list (parse contents)).filterMap targetPath).map
        (resolveOne (base_dir file))).filter (fun p => !pathExists fs p) = _
    rw [filter_map_filterMap]
    congr 1
    funext l
    cases targetPath l with
    | none => rfl
    | some d =>
      simp only [Option.some_bind]
      by_cases hq : pathExists fs (resolveOne (base_dir file) d) <;> simp [hq]
  · rw [hre, candidatePaths_eq parse hr]

theorem c6_order_witness :
    rFix.missing =
      (candidatePaths parseFix fsFix "/tmp/docs/guide.md").filter
        (fun p => !pathExists fsFix p) :=
  (c6_order parseFix fsFix "/tmp/docs/guide.md" rFix (by decide)).2

/-- C8: the pipeline is deterministic and leaves the filesystem unchanged,
so running it again on the document against the filesystem state left by
the first run reproduces the very same result, missing-link order
included. -/
theorem c8_deterministic (parse : String → List Node) (fs : FS) (file : Path)
    (r : RunResult) (h : get_missing_links parse fs file = some r) :
    get_missing_links parse r.fsAfter file = some r := by
  obtain ⟨contents, hr, hre⟩ := run_some_elim h
  have hfs : r.fsAfter = fs := by rw [hre]
  rw [hfs]
  exact h

theorem c8_deterministic_witness :
    get_missing_links parseFix rFix.fsAfter "/tmp/docs/guide.md" = some rFix :=
  c8_deterministic parseFix fsFix "/tmp/docs/guide.md" rFix (by decide)

/-- C9: the pipeline is read-only — the filesystem after a run equals the
filesystem before it, the operation trace consists of the single document
read followed by exactly one existence probe per candidate Resolved Path
in order, and no write operation ever appears in the trace. -/
theorem c9_readonly (parse : String → List Node) (fs : FS) (file : Path)
    (r : RunResult) (h : get_missing_links parse fs file = some r) :
    r.fsAfter = fs
  ∧ r.trace = FSOp.read file :: (candidatePaths parse fs file).map FSOp.probe
  ∧ (∀ p, FSOp.write p ∉ r.trace) := by
  obtain ⟨contents, hr, hre⟩ := run_some_elim h
  refine ⟨by rw [hre], by rw [hre, candidatePaths_eq parse hr], ?_⟩
  intro p hmem
  rw [hre] at hmem
  simp only [List.mem_cons, List.mem_map] at hmem
  rcases hmem with h1 | ⟨a, _, h2⟩
  · exact FSOp.noConfusion h1
  · exact FSOp.noConfusion h2

theorem c9_readonly_witness :
    rFix.fsAfter = fsFix
  ∧ rFix.trace = FSOp.read "/tmp/docs/guide.md" ::
      (candidatePaths parseFix fsFix "/tmp/docs/guide.md").map FSOp.probe :=
  ⟨(c9_readonly parseFix fsFix "/tmp/docs/guide.md" rFix (by decide)).1,
   (c9_readonly parseFix fsFix "/tmp/docs/guide.md" rFix (by decide)).2.1⟩

/-- C10: an empty link target is classified as a Local Reference (it has
no scheme, so URL parsing fails), percent-decodes to the empty string, is
relative, and resolves to the document's containing directory (with a
trailing separator, as `PathBuf::join` produces); it is reported as a
Missing Link exactly when no directory exists there — the trailing
separator makes the existence check require a directory. -/
theorem c10_empty_link (parse : String → List Node) (fs : FS) (file d : Path)
    (contents : String) (r : RunResult)
    (h : get_missing_links parse fs file = some r)
    (hr : read_markdown fs symlinkFuel file = some contents)
    (hp : Path.parent file = some d) (hd0 : d ≠ "")
    (hds : Path.endsWithSlash d = false)
    (hl : "" ∈ extract_links_list (parse contents)) :
    Url.parse "" = none
  ∧ decodeTarget "" = some ""
  ∧ Path.isRelative "" = true
  ∧ resolveOne (base_dir file) "" = d ++ "/"
  ∧ (pathExists fs (d ++ "/") = true ↔
      resolveMeta fs symlinkFuel d = some FileType.dir)
  ∧ ((d ++ "/") ∈ r.missing ↔
      ¬(resolveMeta fs symlinkFuel d = some FileType.dir)) := by
  have hbase : base_dir file = d := by unfold base_dir; rw [hp]
  have hres : resolveOne (base_dir file) "" = d ++ "/" := by
    rw [hbase]
    have hstep : resolveOne d "" =
        if d = "" then ""
        else if Path.endsWithSlash d = true then d ++ "" else d ++ "/" ++ "" := rfl
    rw [hstep, if_neg hd0, if_neg (by simp [hds]), append_empty_str]
  have h1 : pathExists fs (d ++ "/") =
      match resolveMeta fs symlinkFuel d with
      | some FileType.dir => true
      | _ => false := by
    unfold pathExists
    rw [if_neg (append_slash_ne_empty d), if_pos (endsWithSlash_append_slash d)]
    simp only [stripSlashes_append_slash d hds, if_neg hd0]
  have hex : pathExists fs (d ++ "/") = true ↔
      resolveMeta fs symlinkFuel d = some FileType.dir := by
    rw [h1]
    cases hm : resolveMeta fs symlinkFuel d with
    | none => simp
    | some ft => cases ft <;> simp
  have hneg : pathExists fs (d ++ "/") = false ↔
      ¬(resolveMeta fs symlinkFuel d = some FileType.dir) := by
    rw [← hex]
    cases hpe : pathExists fs (d ++ "/") <;> simp
  refine ⟨by decide, by decide, by decide, hres, hex, ?_⟩
  obtain ⟨contents2, hr2, hre⟩ := run_some_elim h
  have hc : contents2 = contents := Option.some.inj (hr2.symm.trans hr)
  subst hc
  have hcand : (d ++ "/") ∈
      ((extract_links_list (parse contents2)).filterMap targetPath).map
        (resolveOne (base_dir file)) := by
    refine List.mem_map.mpr ⟨"", ?_, hres⟩
    exact List.mem_filterMap.mpr ⟨"", hl, by decide⟩
  rw [hre]
  show (d ++ "/") ∈
      (((extract_links_list (parse contents2)).filterMap targetPath).map
        (resolveOne (base_dir file))).filter (fun p => !pathExists fs p) ↔ _
  rw [List.mem_filter]
  constructor
  · rintro ⟨_, h2⟩
    exact hneg.mp (by simpa using h2)
  · intro h2
    exact ⟨hcand, by simpa using hneg.mpr h2⟩

/-- A parser fixture whose document contains one link with an empty URL. -/
def parseEmptyLink : String → List Node := fun _ => [Node.link [] []]

/-- A filesystem containing the document but no entry for its directory. -/
def fsNoDir : FS := [("/tmp/docs/guide.md", Entry.file "x")]

/-- The run result of `parseEmptyLink` over `fsNoDir`. -/
def rEmptyLink : RunResult :=
  ⟨["/tmp/docs/"], [], fsNoDir,
   [FSOp.read "/tmp/docs/guide.md", FSOp.probe "/tmp/docs/"]⟩

theorem c10_empty_link_witness :
    resolveOne (base_dir "/tmp/docs/guide.md") "" = "/tmp/docs" ++ "/"
  ∧ (("/tmp/docs" ++ "/") ∈ rEmptyLink.missing ↔
      ¬(resolveMeta fsNoDir symlinkFuel "/tmp/docs" = some FileType.dir)) :=
  ⟨(c10_empty_link parseEmptyLink fsNoDir "/tmp/docs/guide.md" "/tmp/docs" "x"
      rEmptyLink (by decide) (by decide) (by decide) (by decide) (by decide)
      (by decide)).2.2.2.1,
   (c10_empty_link parseEmptyLink fsNoDir "/tmp/docs/guide.md" "/tmp/docs" "x"
      rEmptyLink (by decide) (by decide) (by decide) (by decide) (by decide)
      (by decide)).2.2.2.2.2⟩

end LinkValidator
